import Mathlib

/-!
# Verification of the UPI deep-link core of `itzmadara/QrBot`

Shallow embedding of `bot.py` (validators `is_valid_upi_id` / `is_valid_amount`,
the link builder `build_upi_link`, the `/qr` command handler `qr_handler`, and
the `/broadcast` handler) together with the auxiliary Python string operations
they use (`str.strip`, `str.replace`, truthiness defaults, `urllib.parse.quote`,
`re` matching for the two concrete patterns, `float()` on decimal literals).

Python strings are modelled as Lean `String` (a list of Unicode scalar values),
machine floats as exact rationals (see the comment on `pyFloat?`), and raised
exceptions as `Except` / `Option` errors.
-/

namespace QrBot

/-! ## Character classes

The character classes appearing in the two regexes of `bot.py` lines 34-35:
`[a-zA-Z0-9.\-_]`, `[a-zA-Z]` and `\d`.  All classes are given by their code
points.  Note: Python's `\d` without `re.ASCII` also matches non-ASCII Unicode
decimal digits (category Nd); we model the ASCII interpretation `[0-9]`, which
is exact for every input discussed in the specification. -/

/-- The class `\d` (ASCII interpretation), i.e. `[0-9]`. -/
def digitCh (c : Char) : Bool := decide (48 ≤ c.toNat ∧ c.toNat ≤ 57)

/-- The class `[a-zA-Z]`. -/
def alphaCh (c : Char) : Bool :=
  decide ((65 ≤ c.toNat ∧ c.toNat ≤ 90) ∨ (97 ≤ c.toNat ∧ c.toNat ≤ 122))

/-- The class `[a-zA-Z0-9.\-_]` (local part of a UPI id): letters, digits,
`.` (46), `-` (45), `_` (95). -/
def localCh (c : Char) : Bool :=
  alphaCh c || digitCh c || decide (c.toNat = 46) || decide (c.toNat = 45) ||
    decide (c.toNat = 95)

/-- The set of characters stripped by Python's `str.strip()` (and by
`float()`): exactly the characters for which `str.isspace()` is true, given by
code point: `\t \n \v \f \r` (9-13), 28-31, space (32), 0x85, 0xA0, 0x1680,
0x2000-0x200A, 0x2028, 0x2029, 0x202F, 0x205F, 0x3000. -/
def pyIsSpace (c : Char) : Bool :=
  decide ((9 ≤ c.toNat ∧ c.toNat ≤ 13) ∨ (28 ≤ c.toNat ∧ c.toNat ≤ 32) ∨
    c.toNat = 0x85 ∨ c.toNat = 0xa0 ∨ c.toNat = 0x1680 ∨
    (0x2000 ≤ c.toNat ∧ c.toNat ≤ 0x200a) ∨ c.toNat = 0x2028 ∨
    c.toNat = 0x2029 ∨ c.toNat = 0x202f ∨ c.toNat = 0x205f ∨ c.toNat = 0x3000)

/-! ## Python `str` helpers -/

/-- Python `str.strip()` on the underlying character list: remove the leading and
trailing runs of whitespace characters. -/
def stripList (cs : List Char) : List Char :=
  ((cs.dropWhile pyIsSpace).reverse.dropWhile pyIsSpace).reverse

/-- Python `s.strip()`. -/
def pyStrip (s : String) : String := ⟨stripList s.data⟩

/-- Python `a or b` for strings: the empty string is falsy, every other string
truthy. -/
def pyOrStr (a b : String) : String := if a = "" then b else a

/-- Python `s.replace("_", " ")`, used by `qr_handler` on the optional
`payee_name` / `note` arguments. -/
def pyReplaceUnderscore (s : String) : String :=
  ⟨s.data.map (fun c => if c = '_' then ' ' else c)⟩

/-- A string is blank when it strips to the empty string. -/
def pyIsBlank (s : String) : Bool := pyStrip s = ""

/-! ## `urllib.parse.quote`

`quote(s)` (default `safe='/'`) UTF-8-encodes `s` and percent-encodes every
byte whose character is not in the always-safe set
`A-Z a-z 0-9 _ . - ~` or in `safe` (`/`), using uppercase hex digits. -/

/-- The UTF-8 encoding of one Unicode scalar value, as a list of byte values. -/
def utf8Bytes (c : Char) : List Nat :=
  if c.toNat < 0x80 then [c.toNat]
  else if c.toNat < 0x800 then [0xc0 + c.toNat / 64, 0x80 + c.toNat % 64]
  else if c.toNat < 0x10000 then
    [0xe0 + c.toNat / 4096, 0x80 + c.toNat / 64 % 64, 0x80 + c.toNat % 64]
  else
    [0xf0 + c.toNat / 262144, 0x80 + c.toNat / 4096 % 64, 0x80 + c.toNat / 64 % 64,
      0x80 + c.toNat % 64]

/-- Uppercase hexadecimal digit for a value `< 16`. -/
def hexUpper (n : Nat) : Char := if n < 10 then Char.ofNat (48 + n) else Char.ofNat (55 + n)

/-- Percent-encoding `%XX` of one byte. -/
def percentByte (b : Nat) : List Char := ['%', hexUpper (b / 16), hexUpper (b % 16)]

/-- The characters `quote` leaves as-is: `urllib`'s `_ALWAYS_SAFE`
(`A-Z` 65-90, `a-z` 97-122, `0-9` 48-57, `_` 95, `.` 46, `-` 45, `~` 126)
plus the default `safe='/'` (47). -/
def isSafeChar (c : Char) : Bool :=
  decide ((65 ≤ c.toNat ∧ c.toNat ≤ 90) ∨ (97 ≤ c.toNat ∧ c.toNat ≤ 122) ∨
    (48 ≤ c.toNat ∧ c.toNat ≤ 57) ∨ c.toNat = 95 ∨ c.toNat = 46 ∨
    c.toNat = 45 ∨ c.toNat = 126 ∨ c.toNat = 47)

/-- Encoding of a single character under `quote`. -/
def pyQuoteChar (c : Char) : List Char :=
  if isSafeChar c then [c] else (utf8Bytes c).flatMap percentByte

/-- Python `urllib.parse.quote(s)` with the default `safe='/'`. -/
def pyQuote (s : String) : String := ⟨s.data.flatMap pyQuoteChar⟩

/-! ## Percent-decoding (`urllib.parse.unquote`), used by the round-trip
claim: replace each valid `%XX` escape by the byte it denotes, leave other
characters as their code point, then UTF-8-decode the byte sequence. -/

def isHexDigitCh (c : Char) : Bool :=
  decide ((48 ≤ c.toNat ∧ c.toNat ≤ 57) ∨ (65 ≤ c.toNat ∧ c.toNat ≤ 70) ∨
    (97 ≤ c.toNat ∧ c.toNat ≤ 102))

def hexValCh (c : Char) : Nat :=
  if c.toNat ≤ 57 then c.toNat - 48
  else if c.toNat ≤ 70 then c.toNat - 55
  else c.toNat - 87

/-- Turn a percent-encoded character sequence into a byte sequence.  A `%`
followed by two hex digits is one byte; any other character (including a `%`
of an invalid escape, which `unquote` keeps literally) contributes its own
code point. -/
def percentBytesOf : List Char → List Nat
  | [] => []
  | '%' :: h :: l :: rest =>
    if isHexDigitCh h = true ∧ isHexDigitCh l = true then
      (16 * hexValCh h + hexValCh l) :: percentBytesOf rest
    else 37 :: percentBytesOf (h :: l :: rest)
  | c :: rest => c.toNat :: percentBytesOf rest

/-- UTF-8 decoding of a byte sequence, with fuel to make the recursion
structural (the fuel is instantiated with the list length, which the
byte-per-step consumption never exceeds).  The decoder reads the length of
each sequence from its lead byte; it is lenient about ill-formed input, which
never arises here since only well-formed encoder output is decoded. -/
def utf8DecodeAux : Nat → List Nat → List Char
  | 0, _ => []
  | _ + 1, [] => []
  | fuel + 1, b :: rest =>
    if b < 0x80 then Char.ofNat b :: utf8DecodeAux fuel rest
    else if b < 0xe0 then
      Char.ofNat ((b - 0xc0) * 64 + (rest.getD 0 0 - 0x80)) ::
        utf8DecodeAux fuel (rest.drop 1)
    else if b < 0xf0 then
      Char.ofNat ((b - 0xe0) * 4096 + (rest.getD 0 0 - 0x80) * 64 +
        (rest.getD 1 0 - 0x80)) :: utf8DecodeAux fuel (rest.drop 2)
    else
      Char.ofNat ((b - 0xf0) * 262144 + (rest.getD 0 0 - 0x80) * 4096 +
        (rest.getD 1 0 - 0x80) * 64 + (rest.getD 2 0 - 0x80)) ::
        utf8DecodeAux fuel (rest.drop 3)

def utf8Decode (bs : List Nat) : List Char := utf8DecodeAux bs.length bs

/-- Percent-decoding of a string, as used when parsing a generated link back. -/
def pyUnquote (s : String) : String := ⟨utf8Decode (percentBytesOf s.data)⟩

/-! ## The validators (`bot.py` lines 34-46)

```python
UPI_ID_REGEX = re.compile(r"^[a-zA-Z0-9.\-_]{2,256}@[a-zA-Z]{2,64}$")
AMOUNT_REGEX = re.compile(r"^\d+(\.\d{1,2})?$")

def is_valid_upi_id(upi_id: str) -> bool:
    return bool(UPI_ID_REGEX.match(upi_id))

def is_valid_amount(amount: str) -> bool:
    if not AMOUNT_REGEX.match(amount):
        return False
    return float(amount) > 0
```

Both patterns are of the form `^core$` where `core` contains no anchors and
cannot match a newline, so Python's `re.match` succeeds exactly when `core`
matches the whole string, or — because `$` also matches just before a newline
that ends the string — when `core` matches the whole string minus one final
`'\n'`.  That final-newline allowance is modelled by `pyDollarMatch`. -/

/-- The negation of the `@` literal, the separator the local class of
`UPI_ID_REGEX` can never match. -/
def notAt (c : Char) : Bool := decide (c ≠ '@')

/-- Whole-string match of `[a-zA-Z0-9.\-_]{2,256}@[a-zA-Z]{2,64}`.  The local
class cannot match `@`, so the `@` of the pattern must align with the first
`@` of the string; the matcher splits there. -/
def upiCore (cs : List Char) : Bool :=
  match cs.dropWhile notAt with
  | '@' :: r =>
    decide (2 ≤ (cs.takeWhile notAt).length ∧ (cs.takeWhile notAt).length ≤ 256) &&
      (cs.takeWhile notAt).all localCh &&
      (decide (2 ≤ r.length ∧ r.length ≤ 64) && r.all alphaCh)
  | _ => false

/-- Whole-string match of `\d+(\.\d{1,2})?`: a nonempty digit run, optionally
followed by `.` and one or two digits. -/
def amountCore (cs : List Char) : Bool :=
  match cs.dropWhile digitCh with
  | [] => decide (1 ≤ (cs.takeWhile digitCh).length)
  | '.' :: f =>
    decide (1 ≤ (cs.takeWhile digitCh).length) &&
      (decide (1 ≤ f.length ∧ f.length ≤ 2) && f.all digitCh)
  | _ => false

/-- Python `re.match` of an anchored pattern `^core$`: `$` matches at the end
of the string or just before a newline at the end of the string. -/
def pyDollarMatch (core : List Char → Bool) (s : String) : Bool :=
  core s.data ||
    match s.data.getLast? with
    | some '\n' => core s.data.dropLast
    | _ => false

/-- The validator `is_valid_upi_id` (`bot.py` lines 39-40). -/
def is_valid_upi_id (s : String) : Bool := pyDollarMatch upiCore s

/-- The numeric value of a digit string, most significant digit first. -/
def natOfDigits : List Char → Nat
  | [] => 0
  | c :: rest => (c.toNat - 48) * 10 ^ rest.length + natOfDigits rest

/-- The exact value of a matched amount string `d` or `d.f`:
`natOfDigits d + natOfDigits f / 10 ^ |f|`, built as a single `mkRat` so that
it evaluates by kernel reduction. -/
def amountVal (cs : List Char) : ℚ :=
  match cs.dropWhile digitCh with
  | '.' :: f =>
    mkRat (natOfDigits (cs.takeWhile digitCh) * 10 ^ f.length + natOfDigits f)
      (10 ^ f.length)
  | _ => mkRat (natOfDigits (cs.takeWhile digitCh)) 1

/-- The rational denoted by a parsed float literal with sign `sgn`, integer
digits `d`, fraction digits `f` and exponent `esgn * e`. -/
def pyFloatValParts (sgn : Int) (d f : List Char) (esgn : Int) (e : Nat) : ℚ :=
  if 0 ≤ esgn then
    mkRat (sgn * (natOfDigits d * 10 ^ f.length + natOfDigits f) * 10 ^ e)
      (10 ^ f.length)
  else
    mkRat (sgn * (natOfDigits d * 10 ^ f.length + natOfDigits f))
      (10 ^ f.length * 10 ^ e)

/-- Exponent part of a float literal: digits after `e`/`E` and an optional
sign, which must run to the end of the string. -/
def pyFloatExpMag (sgn : Int) (d f : List Char) (esgn : Int) (cs : List Char) :
    Option ℚ :=
  if (cs.takeWhile digitCh).length = 0 ∨ cs.dropWhile digitCh ≠ [] then none
  else some (pyFloatValParts sgn d f esgn (natOfDigits (cs.takeWhile digitCh)))

def pyFloatExp (sgn : Int) (d f : List Char) (cs : List Char) : Option ℚ :=
  if cs.take 1 = ['+'] then pyFloatExpMag sgn d f 1 (cs.drop 1)
  else if cs.take 1 = ['-'] then pyFloatExpMag sgn d f (-1) (cs.drop 1)
  else pyFloatExpMag sgn d f 1 cs

/-- Fraction digits of a float literal (the digits after a `.` that follows
the integer digits), or `[]` when there is no `.`. -/
def pyFracDigits (cs : List Char) : List Char :=
  if (cs.dropWhile digitCh).take 1 = ['.'] then
    ((cs.dropWhile digitCh).drop 1).takeWhile digitCh
  else []

/-- What remains of a float literal after its integer and fraction digits. -/
def pyAfterFrac (cs : List Char) : List Char :=
  if (cs.dropWhile digitCh).take 1 = ['.'] then
    ((cs.dropWhile digitCh).drop 1).dropWhile digitCh
  else cs.dropWhile digitCh

/-- Unsigned part of a float literal: `digits [. digits] [exponent]`, with at
least one digit before the exponent. -/
def pyFloatMag (sgn : Int) (cs : List Char) : Option ℚ :=
  if (cs.takeWhile digitCh).length = 0 ∧ (pyFracDigits cs).length = 0 then none
  else if pyAfterFrac cs = [] then
    some (pyFloatValParts sgn (cs.takeWhile digitCh) (pyFracDigits cs) 1 0)
  else if (pyAfterFrac cs).take 1 = ['e'] ∨ (pyAfterFrac cs).take 1 = ['E'] then
    pyFloatExp sgn (cs.takeWhile digitCh) (pyFracDigits cs) ((pyAfterFrac cs).drop 1)
  else none

/-- Python `float(s)`, modelled exactly on the fragment of its grammar that is
reachable from this module: optional surrounding whitespace, an optional sign,
then `digits [. digits] [(e|E) [sign] digits]`.  The `inf`/`nan` words and
digit-group underscores accepted by CPython are omitted: `is_valid_amount`
only ever passes strings matched by `AMOUNT_REGEX` (up to a trailing newline),
which contain none of these.  The result is the exact rational value rather
than the nearest binary64; the only use here is the comparison
`float(amount) > 0`, whose outcome binary64 rounding cannot change (the
smallest positive matchable value is 0.01, far above the underflow
threshold, and rounding is monotone with 0 ↦ 0). -/
def pyFloat? (s : String) : Option ℚ :=
  if (stripList s.data).take 1 = ['+'] then pyFloatMag 1 ((stripList s.data).drop 1)
  else if (stripList s.data).take 1 = ['-'] then
    pyFloatMag (-1) ((stripList s.data).drop 1)
  else pyFloatMag 1 (stripList s.data)

/-- The validator `is_valid_amount` (`bot.py` lines 43-46).  `none` models an uncaught
exception escaping from `float(amount)`. -/
def is_valid_amount (s : String) : Option Bool :=
  if pyDollarMatch amountCore s then (pyFloat? s).map (fun q => decide (0 < q))
  else some false

/-! ## Defaults and the link builder (`bot.py` lines 27-28 and 49-60) -/

/-- Value of `os.getenv("DEFAULT_PAYEE_NAME", "UPI Payment")`, with no environment
override present (the claims are stated for the literal defaults). -/
def DEFAULT_PAYEE_NAME : String := "UPI Payment"

/-- Value of `os.getenv("DEFAULT_NOTE", "Payment")`, with no environment override. -/
def DEFAULT_NOTE : String := "Payment"

/-- Source line `encoded_name = quote(payee_name.strip() or DEFAULT_PAYEE_NAME)`. -/
def encName (payee_name : String) : String :=
  pyQuote (pyOrStr (pyStrip payee_name) DEFAULT_PAYEE_NAME)

/-- Source line `encoded_note = quote(note.strip() or DEFAULT_NOTE)`. -/
def encNote (note : String) : String :=
  pyQuote (pyOrStr (pyStrip note) DEFAULT_NOTE)

/-- The builder `build_upi_link` (`bot.py` lines 49-60): the `pa` and `am` fields are
interpolated verbatim, the `pn` and `tn` fields are the encoded name/note. -/
def build_upi_link (upi_id amount payee_name note : String) : String :=
  "upi://pay?pa=" ++ upi_id ++ "&pn=" ++ encName payee_name ++ "&am=" ++ amount ++
    "&cu=INR" ++ "&tn=" ++ encNote note

/-! ## The `/qr` command handler (`bot.py` lines 161-202)

The handler is modelled as a pure function from the parsed command tokens
(`message.command`: the command word followed by the whitespace-separated
arguments) to the sequence of externally observable actions it performs.
A `.replyText` is a `message.reply_text`, a `.replyPhoto` records the link
encoded in the QR image sent by `message.reply_photo` together with its
caption, and `.logSuccess` is the `logger.info` success record (the user id,
which is not part of the command, is omitted).  An uncaught Python exception
is an `Except.error`. -/

deriving instance DecidableEq for Except

/-- A Python exception escaping a handler. -/
inductive PyExc where
  | nameError (missing : String)
  | valueError (msg : String)
  deriving DecidableEq, Repr

inductive QrAction where
  | replyText (text : String)
  | replyPhoto (link : String) (caption : String)
  | logSuccess (upi_id : String) (amount : String)
  deriving DecidableEq, Repr

def qrUsageMsg : String :=
  "Invalid format.\nUse: `/qr <upi_id> <amount> [payee_name] [note]`"

def qrInvalidUpiMsg : String :=
  "Invalid UPI ID.\nExample valid format: `yourname@okaxis`"

def qrInvalidAmountMsg : String :=
  "Invalid amount. Use a positive number with up to 2 decimals.\nExample: `149.99`"

def qrCaption (upi_id amount payee_name note : String) : String :=
  "UPI QR Generated\n`UPI ID:` `" ++ upi_id ++ "`\n`Amount:` `INR " ++ amount ++
    "`\n`Payee:` `" ++ payee_name ++ "`\n`Note:` `" ++ note ++ "`"

/-- The handler `qr_handler` on the command tokens. -/
def qr_handler (cmd : List String) : Except PyExc (List QrAction) :=
  if cmd.length < 3 then .ok [.replyText qrUsageMsg]
  else
    let upi_id := pyStrip (cmd.getD 1 "")
    let amount := pyStrip (cmd.getD 2 "")
    let payee_name :=
      if 4 ≤ cmd.length then pyReplaceUnderscore (cmd.getD 3 "") else DEFAULT_PAYEE_NAME
    let note :=
      if 5 ≤ cmd.length then pyReplaceUnderscore (cmd.getD 4 "") else DEFAULT_NOTE
    if is_valid_upi_id upi_id = false then .ok [.replyText qrInvalidUpiMsg]
    else
      match is_valid_amount amount with
      | none => .error (.valueError "could not convert string to float")
      | some false => .ok [.replyText qrInvalidAmountMsg]
      | some true =>
        let upi_link := build_upi_link upi_id amount payee_name note
        .ok [.replyPhoto upi_link (qrCaption upi_id amount payee_name note),
             .logSuccess upi_id amount]

/-! ## The `/broadcast` handler (`bot.py` lines 284-364)

`bot.py` imports only `is_user_new` and `save_user_to_db` from `db`; the
module name `db` itself is never bound (there is no `import db` or
`from db import db`), so line 291 `users = db.users.find()` raises
`NameError: name 'db' is not defined` as soon as a reply-to message is
present — before the user loop, before the initial status message.  Likewise
`asyncio` is never imported, so the `except FloodWait` branch (line 334
`await asyncio.sleep(e.x)`) raises `NameError: name 'asyncio' is not defined`,
which propagates out of the `async for` loop.

The per-user loop body (lines 308-341) is modelled by `broadcastLoop`,
parameterised by the outcome the transport would give for each user's send;
it executes only under the supposition that the name `db` resolves to the
database object that `db.py` defines. -/

/-- Outcome raised (or not) by the transport for one user's send. -/
inductive SendOutcome where
  | ok
  | floodWait (seconds : Nat)
  | userIsBlocked
  | peerIdInvalid
  | otherError
  deriving DecidableEq, Repr

structure Tally where
  total : Nat
  successful : Nat
  blocked : Nat
  deleted : Nat
  unsuccessful : Nat
  deriving DecidableEq, Repr

def initialTally : Tally := ⟨0, 0, 0, 0, 0⟩

/-- End state of the broadcast loop: either the loop finishes and the final
tally is reported, or an exception escapes it, losing the counters
accumulated so far (recorded here for analysis). -/
inductive BroadcastEnd where
  | completed (tally : Tally)
  | crashed (exc : PyExc) (tallyAtCrash : Tally)
  deriving DecidableEq, Repr

/-- The `async for user in users` body: `total_users += 1`; a successful send
increments `successful`; `UserIsBlocked` / `PeerIdInvalid` / a generic
exception increment their counters and the loop continues; `FloodWait` is
caught, but its handler evaluates `asyncio.sleep` with `asyncio` unbound, so
the loop dies with a `NameError` — the send is neither retried nor counted in
any outcome category. -/
def broadcastLoop (t : Tally) : List SendOutcome → BroadcastEnd
  | [] => .completed t
  | .ok :: rest =>
    broadcastLoop { t with total := t.total + 1, successful := t.successful + 1 } rest
  | .floodWait _ :: _ => .crashed (.nameError "asyncio") { t with total := t.total + 1 }
  | .userIsBlocked :: rest =>
    broadcastLoop { t with total := t.total + 1, blocked := t.blocked + 1 } rest
  | .peerIdInvalid :: rest =>
    broadcastLoop { t with total := t.total + 1, deleted := t.deleted + 1 } rest
  | .otherError :: rest =>
    broadcastLoop { t with total := t.total + 1, unsuccessful := t.unsuccessful + 1 } rest

/-- Observable result of the whole `/broadcast` handler. -/
inductive BroadcastResult where
  | replyNoTarget
  | crashedBeforeLoop (exc : PyExc)
  deriving DecidableEq, Repr

/-- The `/broadcast` handler as written: without a replied-to message it
replies and returns; with one, it evaluates `db.users.find()` (line 291) and
raises `NameError: name 'db' is not defined`, so it never reaches the loop,
never sends any message and never reports a tally. -/
def broadcast_handler (hasReplyTo : Bool) : BroadcastResult :=
  if hasReplyTo then .crashedBeforeLoop (.nameError "db") else .replyNoTarget

/-! ## Parsing a link back (stated by the round-trip claim of the spec):
split the query string on `&`, split each parameter on its first `=`. -/

/-- Split a character list on every `&` (the result is never empty, so
prepending to its head loses nothing). -/
def splitAmp : List Char → List (List Char)
  | [] => [[]]
  | '&' :: rest => [] :: splitAmp rest
  | c :: rest => (c :: (splitAmp rest).headD []) :: (splitAmp rest).tail

/-- Split one `key=value` parameter at its first `=`. -/
def keyVal (p : List Char) : List Char × List Char :=
  (p.takeWhile (fun c => c ≠ '='),
    match p.dropWhile (fun c => c ≠ '=') with
    | _ :: v => v
    | [] => [])

/-- The parameter list of a `upi://pay?...` link. -/
def linkParams (link : String) : List (List Char × List Char) :=
  (splitAmp (link.data.drop 10)).map keyVal

/-- The raw value of one query parameter of a link. -/
def getParam (link : String) (key : String) : Option String :=
  (List.lookup key.data (linkParams link)).map fun v => ⟨v⟩

/-! ## List and character helper lemmas -/

theorem takeWhile_append_cons {α : Type} (p : α → Bool) (l : List α) (x : α)
    (r : List α) (hl : ∀ c ∈ l, p c = true) (hx : p x = false) :
    (l ++ x :: r).takeWhile p = l ∧ (l ++ x :: r).dropWhile p = x :: r := by
  induction l with
  | nil => simp [List.takeWhile_cons, List.dropWhile_cons, hx]
  | cons a t ih =>
    have ha : p a = true := hl a (by simp)
    have iht := ih fun c hc => hl c (by simp [hc])
    simp [List.takeWhile_cons, List.dropWhile_cons, ha, iht.1, iht.2]

theorem takeWhile_eq_self_of_all {α : Type} (p : α → Bool) (l : List α)
    (h : ∀ c ∈ l, p c = true) : l.takeWhile p = l ∧ l.dropWhile p = [] := by
  induction l with
  | nil => simp
  | cons a t ih =>
    have ha : p a = true := h a (by simp)
    have iht := ih fun c hc => h c (by simp [hc])
    simp [List.takeWhile_cons, List.dropWhile_cons, ha, iht.1, iht.2]

theorem dropWhile_eq_self_of_all {α : Type} (p : α → Bool) (l : List α)
    (h : ∀ c ∈ l, p c = false) : l.dropWhile p = l := by
  cases l with
  | nil => rfl
  | cons a t => simp [List.dropWhile_cons, h a (by simp)]

theorem char_toNat_lt (c : Char) : c.toNat < 1114112 := by
  have h := c.valid
  simp only [Char.toNat] at *
  rcases h with h | ⟨h1, h2⟩ <;> omega

theorem char_ne_of_toNat_ne {c d : Char} (h : c.toNat ≠ d.toNat) : c ≠ d :=
  fun he => h (by rw [he])

/-! ## Stripping lemmas -/

theorem stripList_eq_self {cs : List Char} (h : ∀ c ∈ cs, pyIsSpace c = false) :
    stripList cs = cs := by
  unfold stripList
  rw [dropWhile_eq_self_of_all _ _ h,
    dropWhile_eq_self_of_all _ _ fun c hc => h c (List.mem_reverse.mp hc),
    List.reverse_reverse]

theorem stripList_concat_newline {cs : List Char}
    (h : ∀ c ∈ cs, pyIsSpace c = false) : stripList (cs ++ ['\n']) = cs := by
  cases cs with
  | nil => rfl
  | cons a t =>
    unfold stripList
    have hfront : ((a :: t) ++ ['\n']).dropWhile pyIsSpace = (a :: t) ++ ['\n'] := by
      simp [List.dropWhile_cons, h a (by simp)]
    rw [hfront]
    have hrev : ((a :: t) ++ ['\n']).reverse = '\n' :: (a :: t).reverse := by
      simp
    rw [hrev]
    have hnl : pyIsSpace '\n' = true := by decide
    rw [List.dropWhile_cons, hnl]
    simp only [if_true]
    rw [dropWhile_eq_self_of_all _ _ fun c hc => h c (List.mem_reverse.mp hc),
      List.reverse_reverse]

/-! ## `quote` / percent-decoding round-trip -/

theorem utf8Bytes_sound (c : Char) : ∀ b ∈ utf8Bytes c, b < 256 := by
  intro b hb
  have hv := char_toNat_lt c
  unfold utf8Bytes at hb
  split at hb
  · simp at hb
    omega
  · split at hb
    · simp at hb
      rcases hb with hb | hb <;> omega
    · split at hb
      · simp at hb
        rcases hb with hb | hb | hb <;> omega
      · simp at hb
        rcases hb with hb | hb | hb | hb <;> omega

theorem utf8Bytes_of_ascii (c : Char) (h : c.toNat < 128) :
    utf8Bytes c = [c.toNat] := by
  unfold utf8Bytes
  rw [if_pos h]

theorem hexVal_hexUpper : ∀ n, n < 16 → hexValCh (hexUpper n) = n := by decide

theorem isHex_hexUpper : ∀ n, n < 16 → isHexDigitCh (hexUpper n) = true := by decide

theorem percentBytesOf_cons_ne (c : Char) (rest : List Char) (hc : c ≠ '%') :
    percentBytesOf (c :: rest) = c.toNat :: percentBytesOf rest := by
  rw [percentBytesOf.eq_def]
  split
  · rename_i heq
    simp at heq
  · rename_i heq
    injection heq with h1 h2
    exact absurd h1 hc
  · rename_i heq
    injection heq with h1 h2
    rw [h1, h2]

theorem percentBytesOf_percentByte (b : Nat) (rest : List Char) (hb : b < 256) :
    percentBytesOf (percentByte b ++ rest) = b :: percentBytesOf rest := by
  have hd : b / 16 < 16 := by omega
  have hm : b % 16 < 16 := by omega
  show percentBytesOf ('%' :: hexUpper (b / 16) :: hexUpper (b % 16) :: rest) = _
  rw [percentBytesOf.eq_def]
  simp only [if_pos (And.intro (isHex_hexUpper _ hd) (isHex_hexUpper _ hm))]
  rw [hexVal_hexUpper _ hd, hexVal_hexUpper _ hm]
  congr 1
  omega

theorem percentBytesOf_encoded (bs : List Nat) (rest : List Char)
    (h : ∀ b ∈ bs, b < 256) :
    percentBytesOf (bs.flatMap percentByte ++ rest) = bs ++ percentBytesOf rest := by
  induction bs with
  | nil => rfl
  | cons b t ih =>
    have hb : b < 256 := h b (by simp)
    show percentBytesOf (percentByte b ++ (t.flatMap percentByte ++ rest)) = _
    rw [percentBytesOf_percentByte _ _ hb, ih fun x hx => h x (by simp [hx])]
    rfl

theorem isSafeChar_bounds {c : Char} (h : isSafeChar c = true) :
    c.toNat < 128 ∧ c.toNat ≠ 37 ∧ c.toNat ≠ 38 ∧ c.toNat ≠ 61 := by
  simp only [isSafeChar, decide_eq_true_eq] at h
  omega

theorem percentBytesOf_quote (cs : List Char) :
    percentBytesOf (cs.flatMap pyQuoteChar) = cs.flatMap utf8Bytes := by
  induction cs with
  | nil => rfl
  | cons c t ih =>
    rw [List.flatMap_cons, List.flatMap_cons]
    by_cases hc : isSafeChar c = true
    · have hq : pyQuoteChar c = [c] := by unfold pyQuoteChar; rw [if_pos hc]
      have hb := isSafeChar_bounds hc
      have hne : c ≠ '%' := char_ne_of_toNat_ne (by simpa using hb.2.1)
      rw [hq, utf8Bytes_of_ascii _ hb.1]
      show percentBytesOf (c :: t.flatMap pyQuoteChar) = _
      rw [percentBytesOf_cons_ne _ _ hne, ih]
      rfl
    · have hq : pyQuoteChar c = (utf8Bytes c).flatMap percentByte := by
        unfold pyQuoteChar; rw [if_neg hc]
      rw [hq, percentBytesOf_encoded _ _ (utf8Bytes_sound c), ih]

theorem utf8DecodeAux_encode (cs : List Char) (fuel : Nat)
    (hf : (cs.flatMap utf8Bytes).length ≤ fuel) :
    utf8DecodeAux fuel (cs.flatMap utf8Bytes) = cs := by
  induction cs generalizing fuel with
  | nil =>
    cases fuel <;> rfl
  | cons c t ih =>
    rw [List.flatMap_cons] at *
    have hv := char_toNat_lt c
    have hofn := Char.ofNat_toNat c
    have hlen : 1 ≤ (utf8Bytes c).length := by
      unfold utf8Bytes
      split
      · simp
      · split
        · simp
        · split <;> simp
    obtain ⟨f, rfl⟩ : ∃ f, fuel = f + 1 := by
      cases fuel with
      | zero =>
        exfalso
        rw [List.length_append] at hf
        omega
      | succ f => exact ⟨f, rfl⟩
    have htail : (t.flatMap utf8Bytes).length ≤ f := by
      rw [List.length_append] at hf
      omega
    unfold utf8Bytes
    by_cases h1 : c.toNat < 0x80
    · rw [if_pos h1]
      show utf8DecodeAux (f + 1) (c.toNat :: t.flatMap utf8Bytes) = _
      rw [utf8DecodeAux]
      rw [if_pos h1, hofn, ih f htail]
    · rw [if_neg h1]
      by_cases h2 : c.toNat < 0x800
      · rw [if_pos h2]
        show utf8DecodeAux (f + 1) ((0xc0 + c.toNat / 64) :: (0x80 + c.toNat % 64) ::
          t.flatMap utf8Bytes) = _
        rw [utf8DecodeAux]
        rw [if_neg (by omega), if_pos (by omega)]
        simp only [List.getD_cons_zero, List.drop_succ_cons, List.drop_zero]
        have harith : (0xc0 + c.toNat / 64 - 0xc0) * 64 + (0x80 + c.toNat % 64 - 0x80) =
            c.toNat := by omega
        rw [harith, hofn, ih f htail]
      · rw [if_neg h2]
        by_cases h3 : c.toNat < 0x10000
        · rw [if_pos h3]
          show utf8DecodeAux (f + 1) ((0xe0 + c.toNat / 4096) ::
            (0x80 + c.toNat / 64 % 64) :: (0x80 + c.toNat % 64) ::
            t.flatMap utf8Bytes) = _
          rw [utf8DecodeAux]
          rw [if_neg (by omega), if_neg (by omega), if_pos (by omega)]
          simp only [List.getD_cons_zero, List.getD_cons_succ, List.drop_succ_cons,
            List.drop_zero]
          have harith : (0xe0 + c.toNat / 4096 - 0xe0) * 4096 +
              (0x80 + c.toNat / 64 % 64 - 0x80) * 64 + (0x80 + c.toNat % 64 - 0x80) =
              c.toNat := by omega
          rw [harith, hofn, ih f htail]
        · rw [if_neg h3]
          show utf8DecodeAux (f + 1) ((0xf0 + c.toNat / 262144) ::
            (0x80 + c.toNat / 4096 % 64) :: (0x80 + c.toNat / 64 % 64) ::
            (0x80 + c.toNat % 64) :: t.flatMap utf8Bytes) = _
          rw [utf8DecodeAux]
          rw [if_neg (by omega), if_neg (by omega), if_neg (by omega)]
          simp only [List.getD_cons_zero, List.getD_cons_succ, List.drop_succ_cons,
            List.drop_zero]
          have harith : (0xf0 + c.toNat / 262144 - 0xf0) * 262144 +
              (0x80 + c.toNat / 4096 % 64 - 0x80) * 4096 +
              (0x80 + c.toNat / 64 % 64 - 0x80) * 64 + (0x80 + c.toNat % 64 - 0x80) =
              c.toNat := by omega
          rw [harith, hofn, ih f htail]

theorem utf8Decode_flatMap (cs : List Char) :
    utf8Decode (cs.flatMap utf8Bytes) = cs :=
  utf8DecodeAux_encode cs _ le_rfl

/-- Round-trip: percent-decoding inverts `urllib.parse.quote`. -/
theorem pyUnquote_pyQuote (s : String) : pyUnquote (pyQuote s) = s := by
  show (⟨utf8Decode (percentBytesOf (s.data.flatMap pyQuoteChar))⟩ : String) = s
  rw [percentBytesOf_quote, utf8Decode_flatMap]

theorem hexUpper_toNat_ne : ∀ n, n < 16 →
    (hexUpper n).toNat ≠ 38 ∧ (hexUpper n).toNat ≠ 61 := by decide

/-- Every character of a `quote` output differs from `&` (38) and `=` (61),
so the encoded fields of a link never disturb the query-string structure. -/
theorem pyQuote_char_safety (s : String) :
    ∀ c ∈ (pyQuote s).data, c.toNat ≠ 38 ∧ c.toNat ≠ 61 := by
  intro c hc
  have hc2 : c ∈ s.data.flatMap pyQuoteChar := hc
  rw [List.mem_flatMap] at hc2
  obtain ⟨a, _, hmem⟩ := hc2
  unfold pyQuoteChar at hmem
  split at hmem
  · rename_i hsafe
    rw [List.mem_singleton] at hmem
    subst hmem
    have hb := isSafeChar_bounds hsafe
    exact ⟨hb.2.2.1, hb.2.2.2⟩
  · rw [List.mem_flatMap] at hmem
    obtain ⟨b, hb, hcb⟩ := hmem
    have hb256 := utf8Bytes_sound a b hb
    unfold percentByte at hcb
    simp only [List.mem_cons, List.mem_singleton, List.not_mem_nil, or_false] at hcb
    rcases hcb with rfl | rfl | rfl
    · exact ⟨by decide, by decide⟩
    · exact hexUpper_toNat_ne _ (by omega)
    · exact hexUpper_toNat_ne _ (by omega)

theorem pyQuoteChar_ne_nil (c : Char) : pyQuoteChar c ≠ [] := by
  unfold pyQuoteChar
  split
  · simp
  · unfold utf8Bytes
    split
    · simp [percentByte]
    · split
      · simp [percentByte]
      · split <;> simp [percentByte]

theorem pyQuote_ne_empty {s : String} (h : s ≠ "") : pyQuote s ≠ "" := by
  have hd : s.data ≠ [] := by
    intro hnil
    apply h
    cases s with
    | mk d => cases hnil; rfl
  intro hq
  have hdq : s.data.flatMap pyQuoteChar = [] := congrArg String.data hq
  cases hs : s.data with
  | nil => exact hd hs
  | cons c t =>
    rw [hs, List.flatMap_cons] at hdq
    exact pyQuoteChar_ne_nil c (List.append_eq_nil.mp hdq).1

/-! ## Claim-side regex predicates

These are written from the words of the specification (a whole-string match
of the anchored pattern), to be compared with the source-side validators. -/

/-- The claim-side reading of `^[A-Za-z0-9.\-_]{2,256}@[A-Za-z]{2,64}$` as a
whole-string match. -/
def UpiSpecStrict (s : String) : Prop :=
  ∃ l r : List Char, s.data = l ++ '@' :: r ∧
    2 ≤ l.length ∧ l.length ≤ 256 ∧ (∀ c ∈ l, localCh c = true) ∧
    2 ≤ r.length ∧ r.length ≤ 64 ∧ (∀ c ∈ r, alphaCh c = true)

/-- The claim-side reading of `^\d+(\.\d{1,2})?$` as a whole-string match,
together with the requirement that the denoted decimal value is positive. -/
def AmountSpecStrict (s : String) : Prop :=
  ∃ d : List Char, 1 ≤ d.length ∧ (∀ c ∈ d, digitCh c = true) ∧
    ((s.data = d ∧ 0 < (natOfDigits d : ℚ)) ∨
      ∃ f : List Char, s.data = d ++ '.' :: f ∧ 1 ≤ f.length ∧ f.length ≤ 2 ∧
        (∀ c ∈ f, digitCh c = true) ∧
        0 < (natOfDigits d : ℚ) + (natOfDigits f : ℚ) / 10 ^ f.length)

theorem localCh_ne_at {c : Char} (h : localCh c = true) : c ≠ '@' := by
  apply char_ne_of_toNat_ne
  simp only [localCh, alphaCh, digitCh, Bool.or_eq_true, decide_eq_true_eq] at h
  show c.toNat ≠ 64
  omega

theorem upiSpec_iff_core (s : String) : UpiSpecStrict s ↔ upiCore s.data = true := by
  constructor
  · rintro ⟨l, r, hdec, hl1, hl2, hlc, hr1, hr2, hrc⟩
    have hsplit := takeWhile_append_cons notAt l '@' r
      (fun c hc => by simp [notAt, localCh_ne_at (hlc c hc)]) (by simp [notAt])
    unfold upiCore
    rw [hdec, hsplit.1, hsplit.2]
    simp only [Bool.and_eq_true, decide_eq_true_eq, List.all_eq_true]
    exact ⟨⟨⟨hl1, hl2⟩, hlc⟩, ⟨hr1, hr2⟩, hrc⟩
  · intro h
    unfold upiCore at h
    split at h
    · rename_i r hd
      simp only [Bool.and_eq_true, decide_eq_true_eq, List.all_eq_true] at h
      refine ⟨s.data.takeWhile notAt, r, ?_, h.1.1.1, h.1.1.2, h.1.2, h.2.1.1,
        h.2.1.2, h.2.2⟩
      conv_lhs => rw [← List.takeWhile_append_dropWhile (p := notAt) (l := s.data)]
      rw [hd]
    · simp at h

theorem digitCh_ne_dot {c : Char} (h : digitCh c = true) : c ≠ '.' := by
  apply char_ne_of_toNat_ne
  simp only [digitCh, decide_eq_true_eq] at h
  show c.toNat ≠ 46
  omega

theorem natOfDigits_cons (c : Char) (t : List Char) :
    natOfDigits (c :: t) = (c.toNat - 48) * 10 ^ t.length + natOfDigits t := rfl

/-- A digit string denotes a positive number iff it has a nonzero digit. -/
theorem natOfDigits_pos_iff (l : List Char) (hdig : ∀ c ∈ l, digitCh c = true) :
    0 < natOfDigits l ↔ ∃ c ∈ l, c ≠ '0' := by
  induction l with
  | nil => simp [natOfDigits]
  | cons c t ih =>
    have hc := hdig c (by simp)
    have hct : 48 ≤ c.toNat ∧ c.toNat ≤ 57 := by
      simpa [digitCh] using hc
    have iht := ih fun x hx => hdig x (by simp [hx])
    rw [natOfDigits_cons]
    simp only [List.mem_cons]
    constructor
    · intro hpos
      by_cases hc0 : c = '0'
      · subst hc0
        rw [show ('0' : Char).toNat - 48 = 0 from by decide, Nat.zero_mul,
          Nat.zero_add] at hpos
        obtain ⟨x, hx1, hx2⟩ := iht.mp hpos
        exact ⟨x, Or.inr hx1, hx2⟩
      · exact ⟨c, Or.inl rfl, hc0⟩
    · rintro ⟨x, hx1 | hx1, hx2⟩
      · subst hx1
        have hne : x.toNat ≠ 48 := by
          intro he
          apply hx2
          rw [← Char.ofNat_toNat x, he]
        have hd1 : 1 ≤ x.toNat - 48 := by omega
        have hp : 1 ≤ 10 ^ t.length := Nat.one_le_pow _ _ (by omega)
        have := Nat.mul_le_mul hd1 hp
        omega
      · have := iht.mpr ⟨x, hx1, hx2⟩
        omega

theorem amountVal_nofrac {cs : List Char} (hne : ∀ f, cs.dropWhile digitCh ≠ '.' :: f) :
    amountVal cs = mkRat (natOfDigits (cs.takeWhile digitCh)) 1 := by
  unfold amountVal
  split
  · rename_i f hd
    exact absurd hd (hne f)
  · rfl

theorem amountVal_frac {cs f : List Char} (hd : cs.dropWhile digitCh = '.' :: f) :
    amountVal cs =
      mkRat (natOfDigits (cs.takeWhile digitCh) * 10 ^ f.length + natOfDigits f)
        (10 ^ f.length) := by
  unfold amountVal
  split
  · rename_i f2 hd2
    rw [hd] at hd2
    injection hd2 with h1 h2
    rw [h2]
  · rename_i hno
    exact absurd hd (hno f)

theorem mkRat_int (n : Nat) : mkRat n 1 = (n : ℚ) := by
  rw [Rat.mkRat_eq_div]
  simp

theorem mkRat_decimal_eq (a b k : Nat) :
    mkRat (a * 10 ^ k + b) (10 ^ k) = (a : ℚ) + (b : ℚ) / 10 ^ k := by
  rw [Rat.mkRat_eq_div]
  have h10 : ((10:ℚ)) ^ k ≠ 0 := by positivity
  push_cast
  field_simp

theorem amountSpec_iff_core (s : String) :
    AmountSpecStrict s ↔ (amountCore s.data = true ∧ 0 < amountVal s.data) := by
  constructor
  · rintro ⟨d, hd1, hdig, hshape⟩
    rcases hshape with ⟨hdec, hpos⟩ | ⟨f, hdec, hf1, hf2, hfdig, hpos⟩
    · have hsplit := takeWhile_eq_self_of_all digitCh d hdig
      have hval : amountVal s.data = mkRat (natOfDigits d) 1 := by
        rw [hdec]
        rw [amountVal_nofrac (by rw [hsplit.2]; intro f h; exact absurd h (by simp)),
          hsplit.1]
      constructor
      · unfold amountCore
        rw [hdec, hsplit.1, hsplit.2]
        simpa using hd1
      · rw [hval, mkRat_int]
        exact hpos
    · have hsplit := takeWhile_append_cons digitCh d '.' f
        (fun c hc => hdig c hc) (by decide)
      have hval : amountVal s.data =
          mkRat (natOfDigits d * 10 ^ f.length + natOfDigits f) (10 ^ f.length) := by
        rw [hdec, amountVal_frac hsplit.2, hsplit.1]
      constructor
      · unfold amountCore
        rw [hdec, hsplit.1, hsplit.2]
        simp only [Bool.and_eq_true, decide_eq_true_eq, List.all_eq_true]
        exact ⟨hd1, ⟨hf1, hf2⟩, hfdig⟩
      · rw [hval, mkRat_decimal_eq]
        exact hpos
  · rintro ⟨hcore, hval⟩
    unfold amountCore at hcore
    split at hcore
    · rename_i hd
      rw [amountVal_nofrac (by rw [hd]; intro f h; exact absurd h (by simp)),
        mkRat_int] at hval
      simp only [decide_eq_true_eq] at hcore
      refine ⟨s.data.takeWhile digitCh, hcore,
        fun c hc => List.mem_takeWhile_imp hc, Or.inl ⟨?_, ?_⟩⟩
      · conv_lhs => rw [← List.takeWhile_append_dropWhile (p := digitCh) (l := s.data)]
        rw [hd, List.append_nil]
      · exact hval
    · rename_i f hd
      rw [amountVal_frac hd, mkRat_decimal_eq] at hval
      simp only [Bool.and_eq_true, decide_eq_true_eq, List.all_eq_true] at hcore
      refine ⟨s.data.takeWhile digitCh, hcore.1,
        fun c hc => List.mem_takeWhile_imp hc,
        Or.inr ⟨f, ?_, hcore.2.1.1, hcore.2.1.2, hcore.2.2, ?_⟩⟩
      · conv_lhs => rw [← List.takeWhile_append_dropWhile (p := digitCh) (l := s.data)]
        rw [hd]
      · exact hval
    · exact absurd hcore (by simp)

/-! ## Character consequences of a successful match -/

theorem digitCh_not_space {c : Char} (h : digitCh c = true) : pyIsSpace c = false := by
  simp only [digitCh, decide_eq_true_eq] at h
  simp only [pyIsSpace, decide_eq_false_iff_not]
  omega

theorem amountCore_chars {cs : List Char} (h : amountCore cs = true) :
    ∀ c ∈ cs, digitCh c = true ∨ c = '.' := by
  intro c hc
  conv at hc => rw [← List.takeWhile_append_dropWhile (p := digitCh) (l := cs)]
  rw [List.mem_append] at hc
  rcases hc with hc | hc
  · exact Or.inl (List.mem_takeWhile_imp hc)
  · unfold amountCore at h
    split at h
    · rename_i hd
      rw [hd] at hc
      simp at hc
    · rename_i f hd
      rw [hd] at hc
      simp only [List.mem_cons] at hc
      rcases hc with rfl | hc
      · exact Or.inr rfl
      · simp only [Bool.and_eq_true, List.all_eq_true] at h
        exact Or.inl (h.2.2 c hc)
    · simp at h

theorem amountCore_no_space {cs : List Char} (h : amountCore cs = true) :
    ∀ c ∈ cs, pyIsSpace c = false := by
  intro c hc
  rcases amountCore_chars h c hc with hd | rfl
  · exact digitCh_not_space hd
  · decide

theorem amountCore_no_newline {cs : List Char} (h : amountCore cs = true) :
    '\n' ∉ cs := by
  intro hmem
  rcases amountCore_chars h _ hmem with hd | he
  · exact absurd hd (by decide)
  · exact absurd he (by decide)

theorem upiCore_decomp {cs : List Char} (h : upiCore cs = true) :
    ∃ l r : List Char, cs = l ++ '@' :: r ∧ (∀ c ∈ l, localCh c = true) ∧
      (∀ c ∈ r, alphaCh c = true) := by
  have hs := (upiSpec_iff_core ⟨cs⟩).mpr h
  obtain ⟨l, r, hdec, _, _, hlc, _, _, hrc⟩ := hs
  exact ⟨l, r, hdec, hlc, hrc⟩

theorem upiCore_chars {cs : List Char} (h : upiCore cs = true) :
    ∀ c ∈ cs, localCh c = true ∨ c = '@' ∨ alphaCh c = true := by
  obtain ⟨l, r, hdec, hlc, hrc⟩ := upiCore_decomp h
  intro c hc
  rw [hdec] at hc
  simp only [List.mem_append, List.mem_cons] at hc
  rcases hc with hc | rfl | hc
  · exact Or.inl (hlc c hc)
  · exact Or.inr (Or.inl rfl)
  · exact Or.inr (Or.inr (hrc c hc))

theorem upiCore_no_newline {cs : List Char} (h : upiCore cs = true) :
    '\n' ∉ cs := by
  intro hmem
  rcases upiCore_chars h _ hmem with hl | he | ha
  · exact absurd hl (by decide)
  · exact absurd he (by decide)
  · exact absurd ha (by decide)

/-! ## `float()` on matched amounts -/

theorem pyFloatValParts_plain (d f : List Char) :
    pyFloatValParts 1 d f 1 0 =
      mkRat (natOfDigits d * 10 ^ f.length + natOfDigits f) (10 ^ f.length) := by
  unfold pyFloatValParts
  rw [if_pos (by decide)]
  norm_num

theorem pyFloatMag_of_core {cs : List Char} (h : amountCore cs = true) :
    pyFloatMag 1 cs = some (amountVal cs) := by
  have hd1 : 1 ≤ (cs.takeWhile digitCh).length := by
    unfold amountCore at h
    split at h
    · simpa using h
    · simp only [Bool.and_eq_true, decide_eq_true_eq] at h
      exact h.1
    · simp at h
  unfold pyFloatMag
  rw [if_neg (by omega)]
  cases hdrop : cs.dropWhile digitCh with
  | nil =>
    have hfrac : pyFracDigits cs = [] := by
      unfold pyFracDigits
      rw [hdrop]
      simp
    have hafter : pyAfterFrac cs = [] := by
      unfold pyAfterFrac
      rw [hdrop]
      simp
    rw [hfrac] at *
    rw [if_pos hafter, pyFloatValParts_plain,
      amountVal_nofrac (by rw [hdrop]; intro f hf; exact absurd hf (by simp))]
    simp [natOfDigits]
  | cons c0 f =>
    have hc0 : c0 = '.' := by
      unfold amountCore at h
      split at h
      · rename_i hd
        rw [hd] at hdrop
        exact absurd hdrop (by simp)
      · rename_i f2 hd
        rw [hd] at hdrop
        injection hdrop with h1 h2
        rw [h1]
      · simp at h
    subst hc0
    have hfall : ∀ c ∈ f, digitCh c = true := by
      unfold amountCore at h
      split at h
      · rename_i hd
        rw [hd] at hdrop
        exact absurd hdrop (by simp)
      · rename_i f2 hd
        rw [hd] at hdrop
        injection hdrop with h1 h2
        subst h2
        simp only [Bool.and_eq_true, List.all_eq_true] at h
        exact h.2.2
      · simp at h
    have hfsplit := takeWhile_eq_self_of_all digitCh f hfall
    have hfrac : pyFracDigits cs = f := by
      unfold pyFracDigits
      rw [hdrop]
      simp only [List.take_cons, List.take_zero, if_pos rfl, List.drop_succ_cons,
        List.drop_zero]
      exact hfsplit.1
    have hafter : pyAfterFrac cs = [] := by
      unfold pyAfterFrac
      rw [hdrop]
      simp only [List.take_cons, List.take_zero, if_pos rfl, List.drop_succ_cons,
        List.drop_zero]
      exact hfsplit.2
    rw [hfrac, hafter, if_pos rfl, pyFloatValParts_plain, amountVal_frac hdrop]

theorem digit_head_of_core {cs : List Char} (h : amountCore cs = true) :
    ∃ c0 t, cs = c0 :: t ∧ digitCh c0 = true := by
  have hd1 : 1 ≤ (cs.takeWhile digitCh).length := by
    unfold amountCore at h
    split at h
    · simpa using h
    · simp only [Bool.and_eq_true, decide_eq_true_eq] at h
      exact h.1
    · simp at h
  cases cs with
  | nil => simp at hd1
  | cons c0 t =>
    refine ⟨c0, t, rfl, ?_⟩
    by_cases hc : digitCh c0 = true
    · exact hc
    · rw [List.takeWhile_cons, if_neg (by simp [hc])] at hd1
      simp at hd1

theorem pyFloat_eq_of_strip {s : String} {cs : List Char}
    (hstrip : stripList s.data = cs) (h : amountCore cs = true) :
    pyFloat? s = some (amountVal cs) := by
  obtain ⟨c0, t, hcs, hc0⟩ := digit_head_of_core h
  have hplus : c0 ≠ '+' := by
    apply char_ne_of_toNat_ne
    simp only [digitCh, decide_eq_true_eq] at hc0
    show c0.toNat ≠ 43
    omega
  have hminus : c0 ≠ '-' := by
    apply char_ne_of_toNat_ne
    simp only [digitCh, decide_eq_true_eq] at hc0
    show c0.toNat ≠ 45
    omega
  unfold pyFloat?
  rw [hstrip, hcs]
  rw [if_neg (by simp [hplus]), if_neg (by simp [hminus]), ← hcs,
    pyFloatMag_of_core h]

/-! ## Characterizing `pyDollarMatch` -/

theorem pyDollarMatch_iff (core : List Char → Bool) (s : String) :
    pyDollarMatch core s = true ↔
      (core s.data = true ∨
        ∃ t : List Char, s.data = t ++ ['\n'] ∧ core t = true) := by
  unfold pyDollarMatch
  rw [Bool.or_eq_true]
  constructor
  · rintro (h | h)
    · exact Or.inl h
    · right
      split at h
      · rename_i heq
        have hne : s.data ≠ [] := by
          intro hnil
          rw [hnil] at heq
          simp at heq
        refine ⟨s.data.dropLast, ?_, h⟩
        have hlast : s.data.getLast hne = '\n' := by
          have := List.getLast?_eq_getLast s.data hne
          rw [heq] at this
          injection this with h2
          exact h2.symm
        conv_lhs => rw [← List.dropLast_append_getLast hne]
        rw [hlast]
      · simp at h
  · rintro (h | ⟨t, hdec, hcore⟩)
    · exact Or.inl h
    · right
      have hlast : s.data.getLast? = some '\n' := by
        rw [hdec]
        simp
      split
      · rename_i heq
        have hdrop : s.data.dropLast = t := by
          rw [hdec, List.dropLast_concat]
        rw [hdrop]
        exact hcore
      · rename_i hno
        exact absurd hlast fun h => hno h

theorem string_ext_data {s r : String} (h : s.data = r.data) : s = r := by
  cases s with
  | mk a =>
    cases r with
    | mk b => exact congrArg String.mk h

/-! ## Characterizing `is_valid_amount` -/

theorem is_valid_amount_some_true (s : String) :
    is_valid_amount s = some true ↔
      ((amountCore s.data = true ∧ 0 < amountVal s.data) ∨
        ∃ t : List Char, s.data = t ++ ['\n'] ∧ amountCore t = true ∧
          0 < amountVal t) := by
  unfold is_valid_amount
  by_cases hm : pyDollarMatch amountCore s = true
  · rw [if_pos hm]
    rcases (pyDollarMatch_iff _ _).mp hm with hcore | ⟨t, hdec, hcore⟩
    · rw [pyFloat_eq_of_strip (stripList_eq_self (amountCore_no_space hcore)) hcore]
      simp only [Option.map_some', Option.some.injEq, decide_eq_true_eq]
      constructor
      · intro hv
        exact Or.inl ⟨hcore, hv⟩
      · rintro (⟨_, hv⟩ | ⟨t, hdec, hc2, _⟩)
        · exact hv
        · exfalso
          apply amountCore_no_newline hcore
          rw [hdec]
          simp
    · have hstrip : stripList s.data = t := by
        rw [hdec]
        exact stripList_concat_newline (amountCore_no_space hcore)
      have hnocore : amountCore s.data = false := by
        by_contra hc
        rw [Bool.not_eq_false] at hc
        apply amountCore_no_newline hc
        rw [hdec]
        simp
      rw [pyFloat_eq_of_strip hstrip hcore]
      simp only [Option.map_some', Option.some.injEq, decide_eq_true_eq]
      constructor
      · intro hv
        exact Or.inr ⟨t, hdec, hcore, hv⟩
      · rintro (⟨hc, _⟩ | ⟨t2, hdec2, _, hv⟩)
        · rw [hnocore] at hc
          exact absurd hc (by simp)
        · have : t2 = t := by
            rw [hdec] at hdec2
            exact List.append_cancel_right hdec2.symm
          rw [← this]
          exact hv
  · rw [if_neg hm]
    constructor
    · intro h
      exact absurd (by injection h) Bool.false_ne_true
    · intro h
      exfalso
      apply hm
      rw [pyDollarMatch_iff]
      rcases h with ⟨hc, _⟩ | ⟨t, hdec, hc, _⟩
      · exact Or.inl hc
      · exact Or.inr ⟨t, hdec, hc⟩

/-! ## Claims C2, C3 and C9 -/

/-- C2 (counterexample): the claim "`is_valid_upi_id(s)` is true iff `s`
matches the anchored regex `^[A-Za-z0-9.\-_]{2,256}@[A-Za-z]{2,64}$`, with
strings containing newlines rejected" is false on the code: Python's `$` also
matches just before a trailing newline, so `"foo@bar\n"` is accepted although
it does not whole-string-match the pattern. -/
theorem c2_counterexample :
    is_valid_upi_id "foo@bar\n" = true ∧ ¬ UpiSpecStrict "foo@bar\n" :=
  ⟨by decide, fun h => absurd ((upiSpec_iff_core _).mp h) (by decide)⟩

/-- C2 (amended): `is_valid_upi_id(s)` is true iff `s` whole-string-matches
`[A-Za-z0-9.\-_]{2,256}@[A-Za-z]{2,64}`, or `s` is such a match followed by
exactly one `'\n'` (Python `$` semantics). -/
theorem c2_amended_upi_validation (s : String) :
    is_valid_upi_id s = true ↔
      (UpiSpecStrict s ∨ ∃ t : String, s = t ++ "\n" ∧ UpiSpecStrict t) := by
  unfold is_valid_upi_id
  rw [pyDollarMatch_iff]
  constructor
  · rintro (h | ⟨t, hdec, hcore⟩)
    · exact Or.inl ((upiSpec_iff_core s).mpr h)
    · right
      refine ⟨⟨t⟩, ?_, (upiSpec_iff_core ⟨t⟩).mpr hcore⟩
      apply string_ext_data
      rw [hdec]
      rfl
  · rintro (h | ⟨t, hdec, hspec⟩)
    · exact Or.inl ((upiSpec_iff_core s).mp h)
    · right
      refine ⟨t.data, ?_, (upiSpec_iff_core t).mp hspec⟩
      rw [hdec, String.data_append]

/-- C3 (counterexample): the claim "`is_valid_amount(s)` is true iff `s`
matches `^\d+(\.\d{1,2})?$` and its value is positive" is false on the code:
`"10\n"` does not whole-string-match the pattern, yet `is_valid_amount`
returns `True` for it (Python `$` matches before the trailing newline, and
`float("10\n")` strips the whitespace). -/
theorem c3_counterexample :
    is_valid_amount "10\n" = some true ∧ ¬ AmountSpecStrict "10\n" :=
  ⟨by decide, fun h => absurd ((amountSpec_iff_core _).mp h).1 (by decide)⟩

/-- C3 (amended): `is_valid_amount(s)` returns `True` iff `s` whole-string-
matches `\d+(\.\d{1,2})?` with positive decimal value, or `s` is such a match
followed by exactly one `'\n'` (Python `$` semantics; `float` strips the
newline). -/
theorem c3_amended_amount_validation (s : String) :
    is_valid_amount s = some true ↔
      (AmountSpecStrict s ∨ ∃ t : String, s = t ++ "\n" ∧ AmountSpecStrict t) := by
  rw [is_valid_amount_some_true]
  constructor
  · rintro (h | ⟨t, hdec, hcore, hval⟩)
    · exact Or.inl ((amountSpec_iff_core s).mpr h)
    · right
      refine ⟨⟨t⟩, ?_, (amountSpec_iff_core ⟨t⟩).mpr ⟨hcore, hval⟩⟩
      apply string_ext_data
      rw [hdec]
      rfl
  · rintro (h | ⟨t, hdec, hspec⟩)
    · exact Or.inl ((amountSpec_iff_core s).mp h)
    · right
      have h2 := (amountSpec_iff_core t).mp hspec
      refine ⟨t.data, ?_, h2.1, h2.2⟩
      rw [hdec, String.data_append]

theorem is_valid_amount_isSome (s : String) : (is_valid_amount s).isSome = true := by
  unfold is_valid_amount
  by_cases hm : pyDollarMatch amountCore s = true
  · rw [if_pos hm]
    rcases (pyDollarMatch_iff _ _).mp hm with hcore | ⟨t, hdec, hcore⟩
    · rw [pyFloat_eq_of_strip (stripList_eq_self (amountCore_no_space hcore)) hcore]
      rfl
    · have hstrip : stripList s.data = t := by
        rw [hdec]
        exact stripList_concat_newline (amountCore_no_space hcore)
      rw [pyFloat_eq_of_strip hstrip hcore]
      rfl
  · rw [if_neg hm]
    rfl

/-- C9: `is_valid_amount` is total — it returns a boolean (never the `none`
that models an uncaught exception) on every input string: `float(amount)` is
only reached on strings matched by `AMOUNT_REGEX`, and every such string
(including one carrying the trailing newline `$` admits, which `float`
strips) is a parseable float literal. -/
theorem c9_is_valid_amount_total (s : String) :
    (is_valid_amount s).isSome = true :=
  is_valid_amount_isSome s

/-! ## Claims C4 and C10: the `/qr` handler on invalid input -/

/-- The three validation-failure conditions of `qr_handler`, in source
order. -/
def qrValidationFails (cmd : List String) : Prop :=
  cmd.length < 3 ∨ is_valid_upi_id (pyStrip (cmd.getD 1 "")) = false ∨
    is_valid_amount (pyStrip (cmd.getD 2 "")) ≠ some true

instance (cmd : List String) : Decidable (qrValidationFails cmd) := by
  unfold qrValidationFails
  infer_instance

/-- The specific error string `qr_handler` replies for the first failing
check. -/
def qrFailMsg (cmd : List String) : String :=
  if cmd.length < 3 then qrUsageMsg
  else if is_valid_upi_id (pyStrip (cmd.getD 1 "")) = false then qrInvalidUpiMsg
  else qrInvalidAmountMsg

/-- C4: whenever a `/qr` command fails validation (fewer than 3 tokens,
invalid UPI id, or invalid amount), the handler's observable behaviour is
exactly one `reply_text` with the specific error string for that failure —
no link is built, no QR image is sent, no success record is logged. -/
theorem c4_validation_failure_single_reply (cmd : List String)
    (h : qrValidationFails cmd) :
    qr_handler cmd = .ok [.replyText (qrFailMsg cmd)] := by
  simp only [qr_handler, qrFailMsg]
  by_cases h1 : cmd.length < 3
  · rw [if_pos h1, if_pos h1]
  · rw [if_neg h1, if_neg h1]
    by_cases h2 : is_valid_upi_id (pyStrip (cmd.getD 1 "")) = false
    · rw [if_pos h2, if_pos h2]
    · rw [if_neg h2, if_neg h2]
      have h3 : is_valid_amount (pyStrip (cmd.getD 2 "")) ≠ some true := by
        rcases h with h | h | h
        · exact absurd h h1
        · exact absurd h h2
        · exact h
      rcases ho : is_valid_amount (pyStrip (cmd.getD 2 "")) with _ | b
      · have hs := is_valid_amount_isSome (pyStrip (cmd.getD 2 ""))
        rw [ho] at hs
        exact absurd hs (by simp)
      · cases b with
        | true => exact absurd ho h3
        | false => rfl

/-- C4 (witness): `/qr bad_id 10` fails UPI-id validation and the reply is
exactly the invalid-UPI-ID error, with no photo and no log action. -/
theorem c4_witness :
    qrValidationFails ["qr", "bad_id", "10"] ∧
      qrFailMsg ["qr", "bad_id", "10"] = qrInvalidUpiMsg ∧
      qr_handler ["qr", "bad_id", "10"] =
        .ok [.replyText (qrFailMsg ["qr", "bad_id", "10"])] :=
  ⟨by decide, by decide, c4_validation_failure_single_reply _ (by decide)⟩

/-- C10: when a `/qr` command has at least 3 tokens and both the UPI id and
the amount are invalid, the handler's output is exactly one reply, the
invalid-UPI-ID message: the UPI check comes first and short-circuits the
amount check. -/
theorem c10_upi_checked_before_amount (cmd : List String) (h1 : 3 ≤ cmd.length)
    (h2 : is_valid_upi_id (pyStrip (cmd.getD 1 "")) = false)
    (_h3 : is_valid_amount (pyStrip (cmd.getD 2 "")) ≠ some true) :
    qr_handler cmd = .ok [.replyText qrInvalidUpiMsg] := by
  have hlen : ¬ cmd.length < 3 := by omega
  simp only [qr_handler]
  rw [if_neg hlen, if_pos h2]

/-- C10 (witness): `/qr bad 0` has an invalid UPI id and an invalid amount;
the only reply is the invalid-UPI-ID message. -/
theorem c10_witness :
    3 ≤ (["qr", "bad", "0"] : List String).length ∧
      is_valid_upi_id (pyStrip (["qr", "bad", "0"].getD 1 "")) = false ∧
      is_valid_amount (pyStrip (["qr", "bad", "0"].getD 2 "")) ≠ some true ∧
      qr_handler ["qr", "bad", "0"] = .ok [.replyText qrInvalidUpiMsg] :=
  ⟨by decide, by decide, by decide,
    c10_upi_checked_before_amount _ (by decide) (by decide) (by decide)⟩

/-! ## Claims C1 and C8: the link builder -/

/-- C1 (counterexample): the claim that, for validated inputs with non-blank
`payee_name` and `note`, `build_upi_link` returns `'upi://pay?pa=' + upi_id +
'&pn=' + quote(payee_name) + '&am=' + amount + '&cu=INR' + '&tn=' +
quote(note)` is false: the code quotes `payee_name.strip()`, not
`payee_name`.  With the non-blank name `" John"` (reachable via the
underscore convention, `_John`) the code yields `pn=John` while the claim
predicts `pn=%20John`. -/
theorem c1_counterexample :
    is_valid_upi_id "ab@ok" = true ∧ is_valid_amount "10" = some true ∧
      pyIsBlank " John" = false ∧ pyIsBlank "x" = false ∧
      build_upi_link "ab@ok" "10" " John" "x" ≠
        "upi://pay?pa=" ++ "ab@ok" ++ "&pn=" ++ pyQuote " John" ++ "&am=" ++ "10" ++
          "&cu=INR" ++ "&tn=" ++ pyQuote "x" := by
  refine ⟨by decide, by decide, by decide, by decide, ?_⟩
  decide

theorem pyIsBlank_false_strip_ne {s : String} (h : pyIsBlank s = false) :
    pyStrip s ≠ "" := by
  simpa [pyIsBlank] using h

/-- C1 (amended): for every validated input with non-blank `payee_name` and
`note`, `build_upi_link` returns exactly
`'upi://pay?pa=' + upi_id + '&pn=' + quote(payee_name.strip()) + '&am=' +
amount + '&cu=INR' + '&tn=' + quote(note.strip())` — the `pa` and `am`
fields verbatim and the parameters in exactly this order; the free-text
fields are stripped before percent-encoding. -/
theorem c1_amended_build_encodes_stripped_fields
    (upi_id amount payee_name note : String)
    (_hu : is_valid_upi_id upi_id = true) (_ha : is_valid_amount amount = some true)
    (hn : pyIsBlank payee_name = false) (ht : pyIsBlank note = false) :
    build_upi_link upi_id amount payee_name note =
      "upi://pay?pa=" ++ upi_id ++ "&pn=" ++ pyQuote (pyStrip payee_name) ++
        "&am=" ++ amount ++ "&cu=INR" ++ "&tn=" ++ pyQuote (pyStrip note) := by
  unfold build_upi_link encName encNote pyOrStr
  rw [if_neg (pyIsBlank_false_strip_ne hn), if_neg (pyIsBlank_false_strip_ne ht)]

/-- C1 (witness): a concrete validated instance of the amended statement. -/
theorem c1_witness :
    build_upi_link "ab@ok" "10" "John" "Rent" =
      "upi://pay?pa=" ++ "ab@ok" ++ "&pn=" ++ pyQuote (pyStrip "John") ++
        "&am=" ++ "10" ++ "&cu=INR" ++ "&tn=" ++ pyQuote (pyStrip "Rent") :=
  c1_amended_build_encodes_stripped_fields "ab@ok" "10" "John" "Rent"
    (by decide) (by decide) (by decide) (by decide)

/-- C8: a blank (empty or whitespace-only) `payee_name` or `note` falls back
to the module-level default (`"UPI Payment"` / `"Payment"`, absent
environment overrides) before percent-encoding, so the `pn` and `tn` fields
are never empty; and `/qr yourname@okaxis 149.99` without optional fields
produces exactly the link with `pn=UPI%20Payment` and `tn=Payment`. -/
theorem c8_blank_fields_fall_back_to_defaults
    (upi_id amount payee_name note : String)
    (_h : pyIsBlank payee_name = true ∨ pyIsBlank note = true) :
    build_upi_link upi_id amount payee_name note =
      "upi://pay?pa=" ++ upi_id ++ "&pn=" ++
        (if pyIsBlank payee_name then pyQuote DEFAULT_PAYEE_NAME
          else pyQuote (pyStrip payee_name)) ++
        "&am=" ++ amount ++ "&cu=INR" ++ "&tn=" ++
        (if pyIsBlank note then pyQuote DEFAULT_NOTE else pyQuote (pyStrip note)) ∧
      pyQuote DEFAULT_PAYEE_NAME = "UPI%20Payment" ∧
      pyQuote DEFAULT_NOTE = "Payment" ∧
      encName payee_name ≠ "" ∧ encNote note ≠ "" ∧
      qr_handler ["qr", "yourname@okaxis", "149.99"] =
        .ok [.replyPhoto
              "upi://pay?pa=yourname@okaxis&pn=UPI%20Payment&am=149.99&cu=INR&tn=Payment"
              (qrCaption "yourname@okaxis" "149.99" "UPI Payment" "Payment"),
            .logSuccess "yourname@okaxis" "149.99"] := by
  refine ⟨?_, by decide, by decide, ?_, ?_, by decide⟩
  · unfold build_upi_link encName encNote pyOrStr
    by_cases hb : pyStrip payee_name = "" <;> by_cases hn2 : pyStrip note = "" <;>
      simp [pyIsBlank, hb, hn2]
  · apply pyQuote_ne_empty
    unfold pyOrStr
    split
    · decide
    · rename_i hne
      exact hne
  · apply pyQuote_ne_empty
    unfold pyOrStr
    split
    · decide
    · rename_i hne
      exact hne

/-- C8 (witness): with a whitespace-only name and an empty note, both fields
fall back to the defaults. -/
theorem c8_witness :
    build_upi_link "ab@ok" "10" " " "" =
      "upi://pay?pa=" ++ "ab@ok" ++ "&pn=" ++
        (if pyIsBlank " " then pyQuote DEFAULT_PAYEE_NAME
          else pyQuote (pyStrip " ")) ++
        "&am=" ++ "10" ++ "&cu=INR" ++ "&tn=" ++
        (if pyIsBlank "" then pyQuote DEFAULT_NOTE else pyQuote (pyStrip "")) ∧
      pyQuote DEFAULT_PAYEE_NAME = "UPI%20Payment" ∧
      pyQuote DEFAULT_NOTE = "Payment" ∧
      encName " " ≠ "" ∧ encNote "" ≠ "" ∧
      qr_handler ["qr", "yourname@okaxis", "149.99"] =
        .ok [.replyPhoto
              "upi://pay?pa=yourname@okaxis&pn=UPI%20Payment&am=149.99&cu=INR&tn=Payment"
              (qrCaption "yourname@okaxis" "149.99" "UPI Payment" "Payment"),
            .logSuccess "yourname@okaxis" "149.99"] :=
  c8_blank_fields_fall_back_to_defaults "ab@ok" "10" " " "" (Or.inl (by decide))

/-! ## Claims C5 and C6: the broadcast handler -/

/-- C5 (counterexample): the claim that a FloodWait-ed send is retried after
the mandated pause and eventually counted in a tally category is false on
the code: the `except FloodWait` branch contains no retry at all, and its
`asyncio.sleep` call references the never-imported name `asyncio`, so the
loop aborts with a `NameError`.  A 2-user run whose first send raises
FloodWait crashes with that user counted in `total` only — in no outcome
category — and without processing the second user. -/
theorem c5_counterexample :
    broadcastLoop initialTally [.floodWait 5, .ok] =
      .crashed (.nameError "asyncio") ⟨1, 0, 0, 0, 0⟩ := by decide

/-- C5 (amended): whenever a send raises FloodWait during a broadcast run,
the handler does not pause-and-retry: the `except FloodWait` branch evaluates
`asyncio.sleep` with `asyncio` unbound, so a `NameError` aborts the loop.
The rate-limited user is counted in `total` but in no outcome category, the
remaining users are never processed, and no final tally is reported. -/
theorem c5_amended_floodwait_aborts_without_retry (t t2 : Tally)
    (pre : List SendOutcome) (n : Nat) (rest : List SendOutcome)
    (h : broadcastLoop t pre = .completed t2) :
    broadcastLoop t (pre ++ .floodWait n :: rest) =
      .crashed (.nameError "asyncio") { t2 with total := t2.total + 1 } := by
  induction pre generalizing t with
  | nil =>
    have ht : t = t2 := by
      unfold broadcastLoop at h
      injection h
    subst ht
    rfl
  | cons o p ih =>
    cases o with
    | ok => exact ih _ h
    | floodWait m =>
      unfold broadcastLoop at h
      exact absurd h (by simp)
    | userIsBlocked => exact ih _ h
    | peerIdInvalid => exact ih _ h
    | otherError => exact ih _ h

/-- C5 (witness): a concrete run — one successful send, then a FloodWait —
aborts with the FloodWait user only in `total`. -/
theorem c5_witness :
    broadcastLoop initialTally [.ok] = .completed ⟨1, 1, 0, 0, 0⟩ ∧
      broadcastLoop initialTally ([.ok] ++ .floodWait 7 :: [.ok]) =
        .crashed (.nameError "asyncio") ⟨2, 1, 0, 0, 0⟩ :=
  ⟨by decide, c5_amended_floodwait_aborts_without_retry initialTally
    ⟨1, 1, 0, 0, 0⟩ [.ok] 7 [.ok] (by decide)⟩

/-- C6: `bot.py` never binds the module name `db` (it only imports
`is_user_new` and `save_user_to_db` from it), so with a replied-to message
present the handler raises `NameError` at `db.users.find()` (line 291) before
any send, any status message, or any tally — the spec's scenario of a 3-user
run reporting total=3, successful=1, blocked=1, deleted=1, unsuccessful=0
cannot occur.  The claim does match the loop body as written: were `db` bound
to the database object `db.py` defines, the loop on outcomes ok / blocked /
deleted would complete with exactly that tally, as the second conjunct
shows. -/
theorem c6_broadcast_crashes_before_tally :
    broadcast_handler true = .crashedBeforeLoop (.nameError "db") ∧
      broadcastLoop initialTally [.ok, .userIsBlocked, .peerIdInvalid] =
        .completed ⟨3, 1, 1, 1, 0⟩ :=
  ⟨rfl, by decide⟩

/-! ## Claim C7: parsing a generated link back -/

theorem splitAmp_cons_ne (c : Char) (rest : List Char) (hc : c ≠ '&') :
    splitAmp (c :: rest) =
      (c :: (splitAmp rest).headD []) :: (splitAmp rest).tail := by
  rw [splitAmp.eq_def]
  split
  · rename_i heq
    simp at heq
  · rename_i heq
    injection heq with h1 h2
    exact absurd h1 hc
  · rename_i heq
    injection heq with h1 h2
    rw [h1, h2]

theorem splitAmp_no_amp (a : List Char) (h : '&' ∉ a) : splitAmp a = [a] := by
  induction a with
  | nil => rfl
  | cons c t ih =>
    have hc : c ≠ '&' := fun he => h (by rw [← he]; exact List.mem_cons_self c t)
    rw [splitAmp_cons_ne c t hc, ih fun hm => h (List.mem_cons_of_mem c hm)]
    rfl

theorem splitAmp_append (a rest : List Char) (h : '&' ∉ a) :
    splitAmp (a ++ '&' :: rest) = a :: splitAmp rest := by
  induction a with
  | nil => rfl
  | cons c t ih =>
    have hc : c ≠ '&' := fun he => h (by rw [← he]; exact List.mem_cons_self c t)
    show splitAmp (c :: (t ++ '&' :: rest)) = (c :: t) :: splitAmp rest
    rw [splitAmp_cons_ne _ _ hc, ih fun hm => h (List.mem_cons_of_mem c hm)]
    rfl

theorem keyVal_two (a b : Char) (v : List Char) (ha : a ≠ '=') (hb : b ≠ '=') :
    keyVal (a :: b :: '=' :: v) = ([a, b], v) := by
  have ha' : (decide (a ≠ '=') : Bool) = true := by simp [ha]
  have hb' : (decide (b ≠ '=') : Bool) = true := by simp [hb]
  have he' : (decide (('=' : Char) ≠ '=') : Bool) = false := by decide
  unfold keyVal
  rw [List.takeWhile_cons, ha', List.takeWhile_cons, hb', List.takeWhile_cons, he']
  rw [List.dropWhile_cons, ha', List.dropWhile_cons, hb', List.dropWhile_cons, he']
  simp

theorem localCh_ne_amp_eq {c : Char} (h : localCh c = true) : c ≠ '&' ∧ c ≠ '=' := by
  simp only [localCh, alphaCh, digitCh, Bool.or_eq_true, decide_eq_true_eq] at h
  constructor <;> apply char_ne_of_toNat_ne
  · show c.toNat ≠ 38
    omega
  · show c.toNat ≠ 61
    omega

theorem alphaCh_ne_amp_eq {c : Char} (h : alphaCh c = true) : c ≠ '&' ∧ c ≠ '=' := by
  simp only [alphaCh, decide_eq_true_eq] at h
  constructor <;> apply char_ne_of_toNat_ne
  · show c.toNat ≠ 38
    omega
  · show c.toNat ≠ 61
    omega

theorem digitCh_ne_amp_eq {c : Char} (h : digitCh c = true) : c ≠ '&' ∧ c ≠ '=' := by
  simp only [digitCh, decide_eq_true_eq] at h
  constructor <;> apply char_ne_of_toNat_ne
  · show c.toNat ≠ 38
    omega
  · show c.toNat ≠ 61
    omega

/-- Characters of a string accepted by `is_valid_upi_id` never collide with
the `&`/`=` separators of the query string. -/
theorem valid_upi_chars {s : String} (h : is_valid_upi_id s = true) :
    ∀ c ∈ s.data, c ≠ '&' ∧ c ≠ '=' := by
  intro c hc
  rcases (pyDollarMatch_iff upiCore s).mp h with hcore | ⟨t, hdec, hcore⟩
  · rcases upiCore_chars hcore c hc with hl | rfl | ha
    · exact localCh_ne_amp_eq hl
    · exact ⟨by decide, by decide⟩
    · exact alphaCh_ne_amp_eq ha
  · rw [hdec] at hc
    rw [List.mem_append] at hc
    rcases hc with hc | hc
    · rcases upiCore_chars hcore c hc with hl | rfl | ha
      · exact localCh_ne_amp_eq hl
      · exact ⟨by decide, by decide⟩
      · exact alphaCh_ne_amp_eq ha
    · rw [List.mem_singleton] at hc
      subst hc
      exact ⟨by decide, by decide⟩

/-- Characters of a string accepted by `is_valid_amount` never collide with
the `&`/`=` separators of the query string. -/
theorem valid_amount_chars {s : String} (h : is_valid_amount s = some true) :
    ∀ c ∈ s.data, c ≠ '&' ∧ c ≠ '=' := by
  intro c hc
  rcases (is_valid_amount_some_true s).mp h with ⟨hcore, _⟩ | ⟨t, hdec, hcore, _⟩
  · rcases amountCore_chars hcore c hc with hd | rfl
    · exact digitCh_ne_amp_eq hd
    · exact ⟨by decide, by decide⟩
  · rw [hdec] at hc
    rw [List.mem_append] at hc
    rcases hc with hc | hc
    · rcases amountCore_chars hcore c hc with hd | rfl
      · exact digitCh_ne_amp_eq hd
      · exact ⟨by decide, by decide⟩
    · rw [List.mem_singleton] at hc
      subst hc
      exact ⟨by decide, by decide⟩

theorem lookup_cons_ne {α β : Type} [BEq α] (a k : α) (v : β)
    (t : List (α × β)) (h : (a == k) = false) :
    List.lookup a ((k, v) :: t) = List.lookup a t := by
  simp [List.lookup, h]

theorem lookup_cons_eq {α β : Type} [BEq α] (a k : α) (v : β)
    (t : List (α × β)) (h : (a == k) = true) :
    List.lookup a ((k, v) :: t) = some v := by
  simp [List.lookup, h]

/-- Splitting a generated link on `&` and `=` recovers its five parameters in
order, for any field values free of `&`/`=` (value positions may hold
anything not containing `&`, and the `=`-split takes the first `=`). -/
theorem linkParams_build (upi amount name note : String)
    (hupi : ∀ c ∈ upi.data, c ≠ '&' ∧ c ≠ '=')
    (hamt : ∀ c ∈ amount.data, c ≠ '&' ∧ c ≠ '=') :
    linkParams (build_upi_link upi amount name note) =
      [(['p', 'a'], upi.data), (['p', 'n'], (encName name).data),
       (['a', 'm'], amount.data), (['c', 'u'], ['I', 'N', 'R']),
       (['t', 'n'], (encNote note).data)] := by
  have henc1 : ∀ c ∈ (encName name).data, c ≠ '&' := fun c hc =>
    char_ne_of_toNat_ne (pyQuote_char_safety _ c hc).1
  have henc2 : ∀ c ∈ (encNote note).data, c ≠ '&' := fun c hc =>
    char_ne_of_toNat_ne (pyQuote_char_safety _ c hc).1
  have hp1 : '&' ∉ ('p' :: 'a' :: '=' :: upi.data) := by
    intro hmem
    simp only [List.mem_cons] at hmem
    rcases hmem with h | h | h | h
    · exact absurd h (by decide)
    · exact absurd h (by decide)
    · exact absurd h (by decide)
    · exact (hupi '&' h).1 rfl
  have hp2 : '&' ∉ ('p' :: 'n' :: '=' :: (encName name).data) := by
    intro hmem
    simp only [List.mem_cons] at hmem
    rcases hmem with h | h | h | h
    · exact absurd h (by decide)
    · exact absurd h (by decide)
    · exact absurd h (by decide)
    · exact henc1 '&' h rfl
  have hp3 : '&' ∉ ('a' :: 'm' :: '=' :: amount.data) := by
    intro hmem
    simp only [List.mem_cons] at hmem
    rcases hmem with h | h | h | h
    · exact absurd h (by decide)
    · exact absurd h (by decide)
    · exact absurd h (by decide)
    · exact (hamt '&' h).1 rfl
  have hp4 : '&' ∉ (['c', 'u', '=', 'I', 'N', 'R'] : List Char) := by decide
  have hp5 : '&' ∉ ('t' :: 'n' :: '=' :: (encNote note).data) := by
    intro hmem
    simp only [List.mem_cons] at hmem
    rcases hmem with h | h | h | h
    · exact absurd h (by decide)
    · exact absurd h (by decide)
    · exact absurd h (by decide)
    · exact henc2 '&' h rfl
  unfold linkParams
  have hdata : (build_upi_link upi amount name note).data =
      "upi://pay?pa=".data ++ (upi.data ++ ("&pn=".data ++ ((encName name).data ++
        ("&am=".data ++ (amount.data ++ ("&cu=INR".data ++ ("&tn=".data ++
          (encNote note).data))))))) := by
    unfold build_upi_link
    simp only [String.data_append, List.append_assoc]
  rw [hdata, List.drop_append_of_le_length (by decide)]
  rw [show List.drop 10 "upi://pay?pa=".data = ['p', 'a', '='] from rfl]
  have hshape : (['p', 'a', '='] : List Char) ++ (upi.data ++ ("&pn=".data ++
      ((encName name).data ++ ("&am=".data ++ (amount.data ++ ("&cu=INR".data ++
        ("&tn=".data ++ (encNote note).data))))))) =
      ('p' :: 'a' :: '=' :: upi.data) ++ '&' ::
        (('p' :: 'n' :: '=' :: (encName name).data) ++ '&' ::
          (('a' :: 'm' :: '=' :: amount.data) ++ '&' ::
            ((['c', 'u', '=', 'I', 'N', 'R'] : List Char) ++ '&' ::
              ('t' :: 'n' :: '=' :: (encNote note).data)))) := by
    simp
  rw [hshape, splitAmp_append _ _ hp1, splitAmp_append _ _ hp2,
    splitAmp_append _ _ hp3, splitAmp_append _ _ hp4, splitAmp_no_amp _ hp5]
  simp only [List.map]
  rw [keyVal_two 'p' 'a' _ (by decide) (by decide),
    keyVal_two 'p' 'n' _ (by decide) (by decide),
    keyVal_two 'a' 'm' _ (by decide) (by decide),
    show keyVal ['c', 'u', '=', 'I', 'N', 'R'] = (['c', 'u'], ['I', 'N', 'R'])
      from keyVal_two 'c' 'u' _ (by decide) (by decide),
    keyVal_two 't' 'n' _ (by decide) (by decide)]

/-- C7 (counterexample): the claim that parsing a generated link recovers the
original (post-default) `payee_name` after percent-decoding `pn` is false:
with the non-blank name `" John"` the decoded `pn` field is the stripped
`"John"`, not `" John"`. -/
theorem c7_counterexample :
    is_valid_upi_id "ab@ok" = true ∧ is_valid_amount "10" = some true ∧
      getParam (build_upi_link "ab@ok" "10" " John" "x") "am" = some "10" ∧
      (getParam (build_upi_link "ab@ok" "10" " John" "x") "pn").map pyUnquote =
        some "John" ∧
      (getParam (build_upi_link "ab@ok" "10" " John" "x") "pn").map pyUnquote ≠
        some " John" := by
  refine ⟨by decide, by decide, by decide, by decide, ?_⟩
  decide

/-- C7 (amended): for every validated `upi_id` and `amount` and every
`payee_name` and `note`, splitting the produced link's query string on `&`
and each parameter on `=` recovers the amount verbatim from `am`, and the
stripped-or-defaulted payee name and note from `pn`/`tn` after
percent-decoding. -/
theorem c7_amended_roundtrip_recovers_stripped_fields
    (upi_id amount payee_name note : String)
    (hu : is_valid_upi_id upi_id = true)
    (ha : is_valid_amount amount = some true) :
    getParam (build_upi_link upi_id amount payee_name note) "am" = some amount ∧
      (getParam (build_upi_link upi_id amount payee_name note) "pn").map pyUnquote =
        some (pyOrStr (pyStrip payee_name) DEFAULT_PAYEE_NAME) ∧
      (getParam (build_upi_link upi_id amount payee_name note) "tn").map pyUnquote =
        some (pyOrStr (pyStrip note) DEFAULT_NOTE) := by
  have hlp := linkParams_build upi_id amount payee_name note
    (valid_upi_chars hu) (valid_amount_chars ha)
  refine ⟨?_, ?_, ?_⟩
  · unfold getParam
    rw [hlp]
    rw [show ("am" : String).data = ['a', 'm'] from rfl,
      lookup_cons_ne _ _ _ _ (by decide), lookup_cons_ne _ _ _ _ (by decide),
      lookup_cons_eq _ _ _ _ (by decide)]
    rfl
  · unfold getParam
    rw [hlp]
    rw [show ("pn" : String).data = ['p', 'n'] from rfl,
      lookup_cons_ne _ _ _ _ (by decide), lookup_cons_eq _ _ _ _ (by decide)]
    show some (pyUnquote (encName payee_name)) = _
    rw [show encName payee_name =
      pyQuote (pyOrStr (pyStrip payee_name) DEFAULT_PAYEE_NAME) from rfl,
      pyUnquote_pyQuote]
  · unfold getParam
    rw [hlp]
    rw [show ("tn" : String).data = ['t', 'n'] from rfl,
      lookup_cons_ne _ _ _ _ (by decide), lookup_cons_ne _ _ _ _ (by decide),
      lookup_cons_ne _ _ _ _ (by decide), lookup_cons_ne _ _ _ _ (by decide),
      lookup_cons_eq _ _ _ _ (by decide)]
    show some (pyUnquote (encNote note)) = _
    rw [show encNote note = pyQuote (pyOrStr (pyStrip note) DEFAULT_NOTE) from rfl,
      pyUnquote_pyQuote]

/-- C7 (witness): a concrete validated round trip. -/
theorem c7_witness :
    getParam (build_upi_link "ab@ok" "10" "John" "Rent") "am" = some "10" ∧
      (getParam (build_upi_link "ab@ok" "10" "John" "Rent") "pn").map pyUnquote =
        some (pyOrStr (pyStrip "John") DEFAULT_PAYEE_NAME) ∧
      (getParam (build_upi_link "ab@ok" "10" "John" "Rent") "tn").map pyUnquote =
        some (pyOrStr (pyStrip "Rent") DEFAULT_NOTE) :=
  c7_amended_roundtrip_recovers_stripped_fields "ab@ok" "10" "John" "Rent"
    (by decide) (by decide)

end QrBot
